import Mathlib

set_option linter.unusedSectionVars false
set_option linter.unreachableTactic false
set_option linter.unusedTactic false

/-!
Shallow embedding of `src/VLVector.hpp`: a generic sequence container that
keeps its elements in a fixed inline buffer of `StaticCapacity` slots while
`size ≤ StaticCapacity` and migrates to a heap buffer otherwise.

Modelling choices:
* both buffers are total functions `Nat → α`: slots beyond the live region
  hold whatever was last written there, and freshly allocated heap slots hold
  `default` (a `new T[n]` slot the code never wrote);
* iterators are offsets from `begin()` (`position - begin()` in the code);
* the thrown `std::out_of_range` is an `Except.error` carrying the exact
  message string the code constructs;
* the static capacity `N` (`StaticCapacity`) is passed to every operation.
-/

namespace VLVec

/-- Container state: the fields `_size`, `_capacity`, `heapArr`, `stackArr`
of `VLVector` (VLVector.hpp lines 24-27). -/
structure VLV (α : Type) where
  sz : Nat
  cap : Nat
  heapArr : Nat → α
  stackArr : Nat → α

variable {α : Type} [Inhabited α]

/-- `capfunc(s, stat, nowCap)` (VLVector.hpp lines 551-562): the growth
policy mapping a desired size to a capacity. -/
def capfunc (s stat nowCap : Nat) : Nat :=
  if s ≤ stat then stat
  else if s ≤ nowCap then nowCap
  else 3 * s / 2

/-- The active storage, as dispatched by `data()`, `operator[]` and
`begin()` (lines 166-226, 437-447): `heapArr` when
`_capacity > StaticCapacity`, else `stackArr`. -/
def activeBuf (N : Nat) (v : VLV α) : Nat → α :=
  if N < v.cap then v.heapArr else v.stackArr

/-- Unchecked `operator[]` (lines 199-226). -/
def opIndex (N : Nat) (v : VLV α) (idx : Nat) : α := activeBuf N v idx

/-- The live element sequence: the first `_size` slots of the active
storage, in order. -/
def toList (N : Nat) (v : VLV α) : List α := (List.range v.sz).map (activeBuf N v)

/-- Observable state of a container: size, capacity and live contents. -/
def obs (N : Nat) (v : VLV α) : Nat × Nat × List α := (v.sz, v.cap, toList N v)

/-- Default constructor (line 48): size 0, capacity `StaticCapacity`,
no heap buffer. -/
def emptyVLV (N : Nat) : VLV α :=
  { sz := 0, cap := N, heapArr := fun _ => default, stackArr := fun _ => default }

/-- `_reCap(prevSize)` (lines 497-541), the storage-transition engine,
invoked after `_size` already holds the post-mutation value.  The freed heap
buffer after a heap-to-stack demotion (`heapArr = nullptr`) is modelled as
the all-`default` function. -/
def reCap (N : Nat) (v : VLV α) (prevSize : Nat) : VLV α :=
  if v.sz ≤ v.cap ∧ N < v.sz then v
  else if v.cap = N then
    if v.sz ≤ v.cap then v
    else
      { v with cap := capfunc v.sz N v.cap,
               heapArr := fun i => if i < prevSize then v.stackArr i else default }
  else if N < v.cap then
    if v.cap ≤ v.sz then
      { v with cap := capfunc v.sz N v.cap,
               heapArr := fun i => if i < prevSize then v.heapArr i else default }
    else if v.sz ≤ N then
      { v with cap := N,
               stackArr := fun i => if i < v.sz then v.heapArr i else v.stackArr i,
               heapArr := fun _ => default }
    else v
  else v

/-- The number of elements `_reCap` copies between buffers, following the
same case analysis as `reCap`: `none` when the call performs no transition,
`some k` when a transition copies `k` elements (the code copies `prevSize`
elements on the two growth paths and `_size` elements on the demotion path,
lines 513, 523, 533). -/
def reCapCopyCount (N : Nat) (v : VLV α) (prevSize : Nat) : Option Nat :=
  if v.sz ≤ v.cap ∧ N < v.sz then none
  else if v.cap = N then
    if v.sz ≤ v.cap then none
    else some prevSize
  else if N < v.cap then
    if v.cap ≤ v.sz then some prevSize
    else if v.sz ≤ N then some v.sz
    else none
  else none

/-- `push_back` (lines 109-121): increment `_size`, run `_reCap` with
`prevSize = _size - 1`, then write into slot `_size - 1` of the active
storage. -/
def push_back (N : Nat) (v : VLV α) (x : α) : VLV α :=
  let v2 := reCap N { v with sz := v.sz + 1 } v.sz
  if N < v2.cap then
    { v2 with heapArr := fun i => if i = v2.sz - 1 then x else v2.heapArr i }
  else
    { v2 with stackArr := fun i => if i = v2.sz - 1 then x else v2.stackArr i }

/-- `pop_back` (lines 138-146): no-op when empty, else decrement `_size`
and run `_reCap` with `prevSize = _size + 1` (the pre-decrement count). -/
def pop_back (N : Nat) (v : VLV α) : VLV α :=
  if v.sz = 0 then v else reCap N { v with sz := v.sz - 1 } v.sz

/-- `clear` (lines 151-160): no-op when empty, else record the old size,
set `_size = 0` and run `_reCap` with the old size. -/
def clear (N : Nat) (v : VLV α) : VLV α :=
  if v.sz = 0 then v else reCap N { v with sz := 0 } v.sz

/-- The iterator-range constructor (lines 68-75): start from the default
constructor and replay `push_back` over the range. -/
def fromList (N : Nat) (l : List α) : VLV α := l.foldl (push_back N) (emptyVLV N)

/-- The copy constructor (line 81): delegates to the iterator-range
constructor over `[other.begin(), other.end())`. -/
def copyCtor (N : Nat) (v : VLV α) : VLV α := fromList N (toList N v)

/-- The value thrown by `at` on a bad index:
`std::out_of_range("index out of range")` (lines 242, 260), which carries
only its message string. -/
structure OutOfRange where
  msg : String
deriving DecidableEq

/-- Checked access `at(idx)` (lines 234-262): `operator[]` when
`idx < _size`, otherwise throw `std::out_of_range("index out of range")`. -/
def at_ (N : Nat) (v : VLV α) (idx : Nat) : Except OutOfRange α :=
  if idx < v.sz then Except.ok (opIndex N v idx)
  else Except.error { msg := "index out of range" }

/-- Range-form `insert(position, first, last)` (lines 302-342).  `d` is
`disPos = position - begin()`, `adds` the contents of the temporary vector
built from `[first, last)`.  Each branch performs the literal three-part
copy of the code into its destination buffer; in the heap branch the code
reads the old heap buffer through `begin()`/`position` (under the container
invariant the dispatch still selects `heapArr` there).  Returns the new
state together with the returned iterator's offset from the new `begin()` —
the code's final statement is `return begin() + numAdd;` (line 341). -/
def insertRange (N : Nat) (v : VLV α) (d : Nat) (adds : List α) : VLV α × Nat :=
  let numAdd := adds.length
  let addf : Nat → α := fun i => adds.getD i default
  if N < v.cap then
    let orgSize := v.sz
    let newArr : Nat → α := fun i =>
      if i < d then v.heapArr i
      else if i < d + numAdd then addf (i - d)
      else if i < d + numAdd + (orgSize - d) then v.heapArr (d + (i - (d + numAdd)))
      else default
    ({ v with sz := v.sz + numAdd, cap := capfunc (v.sz + numAdd) N v.cap,
              heapArr := newArr }, numAdd)
  else if N < v.sz + numAdd then
    let orgSize := v.sz
    let newArr : Nat → α := fun i =>
      if i < d then v.stackArr i
      else if i < d + numAdd then addf (i - d)
      else if i < d + numAdd + (orgSize - d) then v.stackArr (d + (i - (d + numAdd)))
      else default
    ({ v with sz := v.sz + numAdd, cap := capfunc (v.sz + numAdd) N v.cap,
              heapArr := newArr }, numAdd)
  else
    let orgSize := v.sz
    let tmp : Nat → α := fun j => if j < orgSize then v.stackArr j else default
    let stack1 : Nat → α := fun i =>
      if d ≤ i ∧ i < d + numAdd then addf (i - d) else v.stackArr i
    let stack2 : Nat → α := fun i =>
      if d + numAdd ≤ i ∧ i < d + numAdd + (orgSize - d) then tmp (d + (i - (d + numAdd)))
      else stack1 i
    ({ v with sz := v.sz + numAdd, stackArr := stack2 }, numAdd)

/-- Single-element `insert(position, toAdd)` (lines 350-387): the same
three choreographies with `numAdd = 1` and a direct write of `toAdd` at
offset `disPos`; returns `begin() + disPos` (line 386). -/
def insertOne (N : Nat) (v : VLV α) (d : Nat) (x : α) : VLV α × Nat :=
  if N < v.cap then
    let orgSize := v.sz
    let newArr : Nat → α := fun i =>
      if i < d then v.heapArr i
      else if i = d then x
      else if i < d + 1 + (orgSize - d) then v.heapArr (d + (i - (d + 1)))
      else default
    ({ v with sz := v.sz + 1, cap := capfunc (v.sz + 1) N v.cap,
              heapArr := newArr }, d)
  else if N < v.sz + 1 then
    let orgSize := v.sz
    let newArr : Nat → α := fun i =>
      if i < d then v.stackArr i
      else if i = d then x
      else if i < d + 1 + (orgSize - d) then v.stackArr (d + (i - (d + 1)))
      else default
    ({ v with sz := v.sz + 1, cap := capfunc (v.sz + 1) N v.cap,
              heapArr := newArr }, d)
  else
    let orgSize := v.sz
    let tmp : Nat → α := fun j => if j < orgSize then v.stackArr j else default
    let stack1 : Nat → α := fun i => if i = d then x else v.stackArr i
    let stack2 : Nat → α := fun i =>
      if d + 1 ≤ i ∧ i < d + 1 + (orgSize - d) then tmp (d + (i - (d + 1)))
      else stack1 i
    ({ v with sz := v.sz + 1, stackArr := stack2 }, d)

/-- Range-form `erase(first, last)` (lines 395-420).  `dF`, `dL` are the
offsets of `first` and `last` from `begin()`; `numSub = last - first`.  The
stay branch shifts within the active buffer, the demotion branch copies the
surviving parts into `stackArr` and frees the heap buffer, the stay-heap
branch shifts within `heapArr`.  Returns the new state with the returned
iterator's offset `disFirst`. -/
def eraseRange (N : Nat) (v : VLV α) (dF dL : Nat) : VLV α × Nat :=
  let numSub := dL - dF
  if v.sz ≤ N then
    let orgSize := v.sz
    let buf := activeBuf N v
    let buf' : Nat → α := fun i =>
      if dF ≤ i ∧ i < dF + (orgSize - dL) then buf (dL + (i - dF)) else buf i
    if N < v.cap then ({ v with sz := v.sz - numSub, heapArr := buf' }, dF)
    else ({ v with sz := v.sz - numSub, stackArr := buf' }, dF)
  else if N < v.sz ∧ v.sz - numSub ≤ N then
    let buf := activeBuf N v
    let stack1 : Nat → α := fun i => if i < dF then v.heapArr i else v.stackArr i
    let stack2 : Nat → α := fun i =>
      if dF ≤ i ∧ i < dF + (v.sz - dL) then buf (dL + (i - dF)) else stack1 i
    ({ v with sz := v.sz - numSub, cap := N, stackArr := stack2,
              heapArr := fun _ => default }, dF)
  else
    let buf := activeBuf N v
    let heap' : Nat → α := fun i =>
      if dF ≤ i ∧ i < dF + (v.sz - dL) then buf (dL + (i - dF)) else v.heapArr i
    ({ v with sz := v.sz - numSub, heapArr := heap' }, dF)

/-- Single-element `erase(toRemove)` (lines 427-431): literally the range
form with `last = toRemove + 1`. -/
def eraseOne (N : Nat) (v : VLV α) (d : Nat) : VLV α × Nat :=
  eraseRange N v d (d + 1)

/-- The recursion inside `operator=` (line 95): `*this = VLVector(rhs)`
re-enters `operator=` with a freshly copy-constructed temporary, which is
never the same object as `*this`, so the self-assignment guard is false on
every re-entry and the body runs `clear()` and recurses again.  The fuel
argument counts the remaining re-entries; `none` means the recursion is
still running when the fuel is exhausted. -/
def opAssignAux (N : Nat) : Nat → VLV α → VLV α → Option (VLV α)
  | 0, _, _ => none
  | fuel + 1, self, rhs => opAssignAux N fuel (clear N self) (copyCtor N rhs)

/-- Copy assignment `operator=` (lines 88-97).  `sameObject` models the
intended self-assignment identity test (the code's guard `&rhs == *this`
compares a pointer with an object and is ill-formed as written; the
identity comparison `&rhs == this` is the evident intent).  When the guard
fails the body runs `this->clear()` and then `*this = VLVector(rhs)`, the
recursion modelled by `opAssignAux`. -/
def opAssign (N : Nat) (fuel : Nat) (sameObject : Bool) (self rhs : VLV α) :
    Option (VLV α) :=
  if sameObject then some self else opAssignAux N fuel self rhs

/-- The container invariant (spec §3): `size ≤ capacity`, `capacity ≥ N`,
and the storage tag is determined by `capacity = N` exactly on `size ≤ N`. -/
def Inv (N : Nat) (v : VLV α) : Prop :=
  v.sz ≤ v.cap ∧ N ≤ v.cap ∧ (v.cap = N ↔ v.sz ≤ N)

instance (N : Nat) (v : VLV α) : Decidable (Inv N v) := by
  unfold Inv; infer_instance

/-- A state whose buffers are scrubbed to `default` at every index `≥ m`:
used to express that a transition never reads a source slot at index
`≥ m`. -/
def srcTrunc (m : Nat) (v : VLV α) : VLV α :=
  { v with heapArr := fun i => if i < m then v.heapArr i else default,
           stackArr := fun i => if i < m then v.stackArr i else default }

end VLVec

namespace VLVec

variable {α : Type} [Inhabited α]

theorem capfunc_ge (s stat now : Nat) : s ≤ capfunc s stat now := by
  unfold capfunc
  split
  · omega
  · split
    · omega
    · omega

theorem capfunc_gt (s stat now : Nat) (h : stat < s) : stat < capfunc s stat now := by
  unfold capfunc
  split
  · omega
  · split
    · omega
    · omega

theorem toList_length (N : Nat) (v : VLV α) : (toList N v).length = v.sz := by
  simp [toList]

theorem toList_congr (N : Nat) (v w : VLV α) (hsz : w.sz = v.sz)
    (h : ∀ i, i < v.sz → activeBuf N w i = activeBuf N v i) :
    toList N w = toList N v := by
  unfold toList
  rw [hsz]
  exact List.map_congr_left fun i hi => h i (List.mem_range.mp hi)

/-- `_reCap` re-establishes the full container invariant from the sole
assumption that the capacity is at least `StaticCapacity`. -/
theorem Inv_reCap (N : Nat) (w : VLV α) (prev : Nat) (hcap : N ≤ w.cap) :
    Inv N (reCap N w prev) := by
  have hge := capfunc_ge w.sz N w.cap
  unfold reCap
  split
  · rename_i h1
    exact ⟨h1.1, hcap, by omega⟩
  rename_i h1
  split
  · rename_i h2
    split
    · rename_i h3
      exact ⟨h3, hcap, by omega⟩
    · rename_i h3
      have hgt := capfunc_gt w.sz N w.cap (by omega)
      unfold Inv
      dsimp only
      omega
  rename_i h2
  split
  · rename_i h3
    split
    · rename_i h4
      have hgt := capfunc_gt w.sz N w.cap (by omega)
      unfold Inv
      dsimp only
      omega
    rename_i h4
    split
    · rename_i h5
      unfold Inv
      dsimp only
      omega
    · rename_i h5
      exact ⟨by omega, hcap, by omega⟩
  · rename_i h3
    exact ⟨by omega, hcap, by omega⟩

theorem Inv_emptyVLV (N : Nat) : Inv N (emptyVLV N : VLV α) := by
  unfold Inv emptyVLV
  dsimp only
  omega

theorem Inv_push_back (N : Nat) (v : VLV α) (x : α) (h : N ≤ v.cap) :
    Inv N (push_back N v x) := by
  have h2 := Inv_reCap N { v with sz := v.sz + 1 } v.sz h
  unfold push_back
  dsimp only
  split
  · exact ⟨h2.1, h2.2.1, h2.2.2⟩
  · exact ⟨h2.1, h2.2.1, h2.2.2⟩

theorem Inv_pop_back (N : Nat) (v : VLV α) (h : Inv N v) : Inv N (pop_back N v) := by
  unfold pop_back
  split
  · exact h
  · exact Inv_reCap N _ _ h.2.1

theorem Inv_clear (N : Nat) (v : VLV α) (h : Inv N v) : Inv N (clear N v) := by
  unfold clear
  split
  · exact h
  · exact Inv_reCap N _ _ h.2.1

theorem Inv_foldl_push (N : Nat) (l : List α) (acc : VLV α) (h : Inv N acc) :
    Inv N (l.foldl (push_back N) acc) := by
  induction l generalizing acc with
  | nil => exact h
  | cons a t ih => exact ih _ (Inv_push_back N acc a h.2.1)

theorem Inv_fromList (N : Nat) (l : List α) : Inv N (fromList N l) :=
  Inv_foldl_push N l _ (Inv_emptyVLV N)

theorem Inv_insertRange (N : Nat) (v : VLV α) (d : Nat) (adds : List α)
    (h : Inv N v) : Inv N (insertRange N v d adds).1 := by
  obtain ⟨h1, h2, h3⟩ := h
  unfold insertRange
  dsimp only
  split
  · rename_i hc
    have hgt := capfunc_gt (v.sz + adds.length) N v.cap (by omega)
    have hge := capfunc_ge (v.sz + adds.length) N v.cap
    unfold Inv
    dsimp only
    omega
  split
  · rename_i hc hk
    have hgt := capfunc_gt (v.sz + adds.length) N v.cap (by omega)
    have hge := capfunc_ge (v.sz + adds.length) N v.cap
    unfold Inv
    dsimp only
    omega
  · rename_i hc hk
    unfold Inv
    dsimp only
    omega

theorem Inv_insertOne (N : Nat) (v : VLV α) (d : Nat) (x : α)
    (h : Inv N v) : Inv N (insertOne N v d x).1 := by
  obtain ⟨h1, h2, h3⟩ := h
  unfold insertOne
  dsimp only
  split
  · rename_i hc
    have hgt := capfunc_gt (v.sz + 1) N v.cap (by omega)
    have hge := capfunc_ge (v.sz + 1) N v.cap
    unfold Inv
    dsimp only
    omega
  split
  · rename_i hc hk
    have hgt := capfunc_gt (v.sz + 1) N v.cap (by omega)
    have hge := capfunc_ge (v.sz + 1) N v.cap
    unfold Inv
    dsimp only
    omega
  · rename_i hc hk
    unfold Inv
    dsimp only
    omega

theorem Inv_eraseRange (N : Nat) (v : VLV α) (dF dL : Nat) (h : Inv N v) :
    Inv N (eraseRange N v dF dL).1 := by
  obtain ⟨h1, h2, h3⟩ := h
  unfold eraseRange
  dsimp only
  split
  · rename_i hs
    split
    · unfold Inv
      dsimp only
      omega
    · unfold Inv
      dsimp only
      omega
  split
  · rename_i hs hdem
    unfold Inv
    dsimp only
    omega
  · rename_i hs hdem
    unfold Inv
    dsimp only
    omega

/-- C1: copy-assignment `a = b` never terminates for distinct objects.  The
body of `operator=` (VLVector.hpp lines 88-97) runs `this->clear()` and then
`*this = VLVector(rhs)`, which re-enters `operator=` with a fresh temporary
(never the same object as `*this`), so the recursion never bottoms out: for
every fuel bound the modelled assignment is still running (`none`).  (Its
guard `&rhs == *this` moreover compares a pointer with an object.)  Only
`sameObject = true` (self-assignment) returns. -/
theorem C1_copy_assignment_diverges :
    ∀ (N fuel : Nat) (a b : VLV Nat), opAssign N fuel false a b = none := by
  intro N fuel
  induction fuel with
  | zero => intro a b; rfl
  | succ n ih =>
    intro a b
    have h := ih (clear N a) (copyCtor N b)
    simpa [opAssign, opAssignAux] using h

/-- C2: the range form of `insert` does not return an iterator to the first
inserted element.  With `N = 4`, container `[10, 20, 30]` and an insertion of
`[1, 2]` at offset 0, the code returns `begin() + numAdd = begin() + 2`
(line 341), while the first inserted element sits at offset 0 — even though
the contents are inserted correctly and the single-element form does return
`begin() + disPos` (line 386). -/
theorem C2_range_insert_return_bug :
    (insertRange 4 (fromList 4 [10, 20, 30] : VLV Nat) 0 [1, 2]).2 = 2
  ∧ (insertRange 4 (fromList 4 [10, 20, 30] : VLV Nat) 0 [1, 2]).2 ≠ 0
  ∧ toList 4 (insertRange 4 (fromList 4 [10, 20, 30] : VLV Nat) 0 [1, 2]).1
      = [1, 2, 10, 20, 30]
  ∧ (insertOne 4 (fromList 4 [10, 20, 30] : VLV Nat) 0 9).2 = 0 := by
  refine ⟨by decide, by decide, by decide, by decide⟩

/-- C6: the storage invariant — `size ≤ capacity`, `capacity ≥ N`, and
inline (`capacity = N`) exactly when `size ≤ N` — holds for a fresh
container and is preserved by every public mutating operation; consequently
the `erase` dispatch on the pre-erase `size ≤ N` identifies the active
storage (`capacity = N` versus `capacity > N`). -/
theorem C6_storage_invariant (N : Nat) (v : VLV Nat) (x : Nat) (l : List Nat)
    (d dF dL : Nat) (adds : List Nat) (hInv : Inv N v) :
    Inv N (emptyVLV N : VLV Nat)
  ∧ Inv N (push_back N v x)
  ∧ Inv N (pop_back N v)
  ∧ Inv N (clear N v)
  ∧ Inv N (fromList N l : VLV Nat)
  ∧ Inv N (insertRange N v d adds).1
  ∧ Inv N (insertOne N v d x).1
  ∧ Inv N (eraseRange N v dF dL).1
  ∧ Inv N (eraseOne N v dF).1
  ∧ (v.sz ≤ N ↔ v.cap = N) :=
  ⟨Inv_emptyVLV N, Inv_push_back N v x hInv.2.1, Inv_pop_back N v hInv,
   Inv_clear N v hInv, Inv_fromList N l, Inv_insertRange N v d adds hInv,
   Inv_insertOne N v d x hInv, Inv_eraseRange N v dF dL hInv,
   Inv_eraseRange N v dF (dF + 1) hInv, ⟨fun h => hInv.2.2.mpr h, fun h => hInv.2.2.mp h⟩⟩

/-- Witness for C6 at a concrete container. -/
theorem C6_storage_invariant_witness : Inv 4 (emptyVLV 4 : VLV Nat) :=
  (C6_storage_invariant 4 (fromList 4 [1, 2]) 7 [1, 2, 3] 1 0 1 [9] (by decide)).1

/-- C8: with `N = 4`, pushing a 5th element onto a container grown from
empty yields `capacity() = 7 = 3 * 5 / 2` in heap storage, and popping back
down to 4 elements restores `capacity() = 4` (inline storage) with the four
remaining elements preserved in order. -/
theorem C8_growth_numbers :
    (fromList 4 [0, 1, 2, 3, 4] : VLV Nat).cap = 7
  ∧ (fromList 4 [0, 1, 2, 3, 4] : VLV Nat).cap = 3 * 5 / 2
  ∧ 4 < (fromList 4 [0, 1, 2, 3, 4] : VLV Nat).cap
  ∧ (fromList 4 [0, 1, 2, 3] : VLV Nat).cap = 4
  ∧ (pop_back 4 (fromList 4 [0, 1, 2, 3, 4] : VLV Nat)).cap = 4
  ∧ toList 4 (pop_back 4 (fromList 4 [0, 1, 2, 3, 4] : VLV Nat)) = [0, 1, 2, 3] := by
  refine ⟨by decide, by decide, by decide, by decide, by decide, by decide⟩

/-- C7 counterexample: the error thrown by `at` on an out-of-range index is
the constant `std::out_of_range("index out of range")` and does not carry or
identify the offending index — no recovery function can read the index back
from the error, because two different out-of-range indices (5 and 6 on a
one-element container) yield the very same error value. -/
theorem C7_error_lacks_index :
    ¬ ∃ recover : OutOfRange → Nat,
        ∀ idx : Nat, (fromList 4 [10] : VLV Nat).sz ≤ idx →
          ∃ e, at_ 4 (fromList 4 [10] : VLV Nat) idx = Except.error e
            ∧ recover e = idx := by
  rintro ⟨f, h⟩
  obtain ⟨e5, he5, hf5⟩ := h 5 (by decide)
  obtain ⟨e6, he6, hf6⟩ := h 6 (by decide)
  have h5 : at_ 4 (fromList 4 [10] : VLV Nat) 5
      = Except.error { msg := "index out of range" } := rfl
  have h6 : at_ 4 (fromList 4 [10] : VLV Nat) 6
      = Except.error { msg := "index out of range" } := rfl
  rw [h5] at he5
  rw [h6] at he6
  injection he5 with k5
  injection he6 with k6
  rw [← k5] at hf5
  rw [← k6] at hf6
  omega

/-- C7 (amended): `at(idx)` succeeds exactly on `idx < size`; on failure it
throws the fixed error `std::out_of_range("index out of range")`, whose
value does not depend on (and so does not identify) the index, and on
success it returns the same element as the unchecked `operator[]`, namely
entry `idx` of the live contents.  `at` performs no mutation, so size,
capacity and contents are unchanged. -/
theorem C7_at_checked (N : Nat) (v : VLV Nat) (idx : Nat) :
    ((at_ N v idx).isOk ↔ idx < v.sz)
  ∧ (v.sz ≤ idx → at_ N v idx = Except.error { msg := "index out of range" })
  ∧ (idx < v.sz → at_ N v idx = Except.ok (opIndex N v idx)
      ∧ at_ N v idx = Except.ok ((toList N v).getD idx default)) := by
  unfold at_
  by_cases h : idx < v.sz
  · rw [if_pos h]
    refine ⟨by simp [Except.isOk, Except.toBool, h], by omega, fun _ => ⟨rfl, ?_⟩⟩
    have : (toList N v).getD idx default = activeBuf N v idx := by
      simp [toList, List.getD_eq_getElem?_getD, List.getElem?_map,
        List.getElem?_range, h]
    rw [this]
    rfl
  · rw [if_neg h]
    exact ⟨by simp [Except.isOk, Except.toBool, h], fun _ => rfl, fun hlt => absurd hlt h⟩

/-- Witness for C7 at a concrete container and index. -/
theorem C7_at_checked_witness :
    ((at_ 4 (fromList 4 [10] : VLV Nat) 0).isOk ↔ 0 < (fromList 4 [10] : VLV Nat).sz)
  ∧ ((fromList 4 [10] : VLV Nat).sz ≤ 0 →
      at_ 4 (fromList 4 [10] : VLV Nat) 0 = Except.error { msg := "index out of range" })
  ∧ (0 < (fromList 4 [10] : VLV Nat).sz →
      at_ 4 (fromList 4 [10] : VLV Nat) 0
        = Except.ok (opIndex 4 (fromList 4 [10] : VLV Nat) 0)
      ∧ at_ 4 (fromList 4 [10] : VLV Nat) 0
        = Except.ok ((toList 4 (fromList 4 [10] : VLV Nat)).getD 0 default)) :=
  C7_at_checked 4 (fromList 4 [10]) 0

theorem capfunc_of_le (s stat now : Nat) (hs : stat < s) (h : s ≤ now) :
    capfunc s stat now = now := by
  unfold capfunc
  rw [if_neg (by omega), if_pos h]

/-- C9: inserting zero elements (range form with `first = last`) and erasing
an empty range (`first = last`) both leave size, capacity and contents
unchanged. -/
theorem C9_empty_ops_frame (N : Nat) (v : VLV Nat) (d : Nat)
    (hInv : Inv N v) (hd : d ≤ v.sz) :
    obs N (insertRange N v d []).1 = obs N v
  ∧ obs N (eraseRange N v d d).1 = obs N v := by
  obtain ⟨h1, h2, h3⟩ := hInv
  constructor
  · simp only [insertRange, List.length_nil, Nat.add_zero]
    split
    · rename_i hc
      have hcap : capfunc v.sz N v.cap = v.cap := capfunc_of_le _ _ _ (by omega) h1
      simp only [obs, hcap, Prod.mk.injEq]
      refine ⟨trivial, trivial, toList_congr N v _ rfl ?_⟩
      intro i hi
      simp only [activeBuf, hcap]
      simp only [if_pos hc]
      by_cases hid : i < d
      · rw [if_pos hid]
      · rw [if_neg hid, if_neg hid, if_pos (show i < d + (v.sz - d) by omega)]
        congr 1
        omega
    split
    · rename_i hc hk
      exfalso
      omega
    · rename_i hc hk
      simp only [obs, Prod.mk.injEq]
      refine ⟨trivial, trivial, toList_congr N v _ rfl ?_⟩
      intro i hi
      simp only [activeBuf]
      simp only [if_neg hc]
      by_cases hid : d ≤ i
      · rw [if_pos (show d ≤ i ∧ i < d + (v.sz - d) by omega)]
        rw [show d + (i - d) = i by omega, if_pos hi]
      · rw [if_neg (show ¬ (d ≤ i ∧ i < d + (v.sz - d)) by omega)]
        rw [if_neg (show ¬ (d ≤ i ∧ i < d) by omega)]
  · simp only [eraseRange, Nat.sub_self, Nat.sub_zero]
    split
    · rename_i hs
      split
      · rename_i hc
        simp only [obs, Prod.mk.injEq, activeBuf]
        refine ⟨trivial, trivial, toList_congr N v _ rfl ?_⟩
        intro i hi
        simp only [activeBuf]
        simp only [if_pos hc]
        by_cases hid : d ≤ i ∧ i < d + (v.sz - d)
        · rw [if_pos hid, show d + (i - d) = i by omega]
        · rw [if_neg hid]
      · rename_i hc
        simp only [obs, Prod.mk.injEq, activeBuf]
        refine ⟨trivial, trivial, toList_congr N v _ rfl ?_⟩
        intro i hi
        simp only [activeBuf]
        simp only [if_neg hc]
        by_cases hid : d ≤ i ∧ i < d + (v.sz - d)
        · rw [if_pos hid, show d + (i - d) = i by omega]
        · rw [if_neg hid]
    split
    · rename_i hs hdem
      exfalso
      omega
    · rename_i hs hdem
      simp only [obs, Prod.mk.injEq, activeBuf]
      refine ⟨trivial, trivial, toList_congr N v _ rfl ?_⟩
      intro i hi
      have hc : N < v.cap := by omega
      simp only [activeBuf]
      simp only [if_pos hc]
      by_cases hid : d ≤ i ∧ i < d + (v.sz - d)
      · rw [if_pos hid, show d + (i - d) = i by omega]
      · rw [if_neg hid]

/-- Witness for C9 at a concrete container and position. -/
theorem C9_empty_ops_frame_witness :
    obs 4 (insertRange 4 (fromList 4 [5, 6, 7] : VLV Nat) 1 []).1
      = obs 4 (fromList 4 [5, 6, 7] : VLV Nat) :=
  (C9_empty_ops_frame 4 (fromList 4 [5, 6, 7]) 1 (by decide) (by decide)).1

theorem reCap_noop_heap (N : Nat) (w : VLV α) (p : Nat) (hle : w.sz ≤ w.cap)
    (hgt : N < w.sz) : reCap N w p = w := by
  unfold reCap
  rw [if_pos ⟨hle, hgt⟩]

theorem reCap_noop_inline (N : Nat) (w : VLV α) (p : Nat) (hcap : w.cap = N)
    (hle : w.sz ≤ w.cap) : reCap N w p = w := by
  unfold reCap
  rw [if_neg (by omega), if_pos hcap, if_pos hle]

theorem reCap_to_heap (N : Nat) (w : VLV α) (p : Nat) (hcap : w.cap = N)
    (hgt : w.cap < w.sz) :
    reCap N w p = { w with
                    cap := capfunc w.sz N w.cap,
                    heapArr := fun i => if i < p then w.stackArr i else default } := by
  unfold reCap
  rw [if_neg (by omega), if_pos hcap, if_neg (by omega)]

theorem reCap_grow (N : Nat) (w : VLV α) (p : Nat) (hcap : N < w.cap)
    (hlt : w.cap < w.sz) :
    reCap N w p = { w with
                    cap := capfunc w.sz N w.cap,
                    heapArr := fun i => if i < p then w.heapArr i else default } := by
  unfold reCap
  rw [if_neg (by omega), if_neg (by omega), if_pos hcap, if_pos (by omega)]

theorem reCap_demote (N : Nat) (w : VLV α) (p : Nat) (hcap : N < w.cap)
    (hle : w.sz ≤ N) :
    reCap N w p = { w with
                    cap := N,
                    stackArr := fun i => if i < w.sz then w.heapArr i else w.stackArr i,
                    heapArr := fun _ => default } := by
  unfold reCap
  rw [if_neg (by omega), if_neg (by omega), if_pos hcap, if_neg (by omega),
    if_pos hle]

theorem push_eq_inline_stay (N : Nat) (v : VLV α) (x : α) (hcap : v.cap = N)
    (hs : v.sz < N) :
    push_back N v x = { v with
                        sz := v.sz + 1,
                        stackArr := fun i => if i = v.sz then x else v.stackArr i } := by
  simp only [push_back]
  rw [reCap_noop_inline N _ _ (by first | omega | (dsimp only; omega)) (by first | omega | (dsimp only; omega))]
  rw [if_neg (by first | omega | (dsimp only; omega))]
  dsimp only
  simp only [Nat.add_sub_cancel]

theorem push_eq_promote (N : Nat) (v : VLV α) (x : α) (hcap : v.cap = N)
    (hs : N ≤ v.sz) :
    push_back N v x = { v with
                        sz := v.sz + 1,
                        cap := capfunc (v.sz + 1) N v.cap,
                        heapArr := fun i =>
                          if i = v.sz then x
                          else if i < v.sz then v.stackArr i else default } := by
  have hgt := capfunc_gt (v.sz + 1) N v.cap (by omega)
  simp only [push_back]
  rw [reCap_to_heap N _ _ (by first | omega | (dsimp only; omega)) (by first | omega | (dsimp only; omega))]
  rw [if_pos (by first | omega | (dsimp only; omega))]
  dsimp only
  simp only [Nat.add_sub_cancel]

theorem push_eq_heap_room (N : Nat) (v : VLV α) (x : α) (hcap : N < v.cap)
    (hroom : v.sz + 1 ≤ v.cap) (hsz : N < v.sz + 1) :
    push_back N v x = { v with
                        sz := v.sz + 1,
                        heapArr := fun i => if i = v.sz then x else v.heapArr i } := by
  simp only [push_back]
  rw [reCap_noop_heap N _ _ (by first | omega | (dsimp only; omega)) (by first | omega | (dsimp only; omega))]
  rw [if_pos (by first | omega | (dsimp only; omega))]
  dsimp only
  simp only [Nat.add_sub_cancel]

theorem push_eq_heap_grow (N : Nat) (v : VLV α) (x : α) (hcap : N < v.cap)
    (hfull : v.cap ≤ v.sz) :
    push_back N v x = { v with
                        sz := v.sz + 1,
                        cap := capfunc (v.sz + 1) N v.cap,
                        heapArr := fun i =>
                          if i = v.sz then x
                          else if i < v.sz then v.heapArr i else default } := by
  have hgt := capfunc_gt (v.sz + 1) N v.cap (by omega)
  simp only [push_back]
  rw [reCap_grow N _ _ (by first | omega | (dsimp only; omega)) (by first | omega | (dsimp only; omega))]
  rw [if_pos (by first | omega | (dsimp only; omega))]
  dsimp only
  simp only [Nat.add_sub_cancel]

/-- C10: for every container satisfying the invariant and every value,
`push_back` followed by `pop_back` restores the original size and the
original element sequence (capacity and storage location may differ from
the original). -/
theorem C10_push_pop_roundtrip (N : Nat) (v : VLV α) (x : α) (hInv : Inv N v) :
    toList N (pop_back N (push_back N v x)) = toList N v
  ∧ (pop_back N (push_back N v x)).sz = v.sz := by
  obtain ⟨h1, h2, h3⟩ := hInv
  by_cases hc : N < v.cap
  · have hsz : N < v.sz := by omega
    by_cases hroom : v.sz + 1 ≤ v.cap
    · rw [push_eq_heap_room N v x hc hroom (by omega)]
      simp only [pop_back]
      rw [if_neg (by first | omega | (dsimp only; omega))]
      rw [reCap_noop_heap N _ _ (by first | omega | (dsimp only; omega)) (by first | omega | (dsimp only; omega))]
      constructor
      · refine toList_congr N v _ (by first | omega | (dsimp only; omega)) ?_
        intro i hi
        simp only [activeBuf]
        try dsimp only
        simp only [if_pos hc]
        rw [if_neg (by omega)]
      · try dsimp only
        omega
    · have hfull : v.cap ≤ v.sz := by omega
      have hge := capfunc_ge (v.sz + 1) N v.cap
      have hgt := capfunc_gt (v.sz + 1) N v.cap (by omega)
      rw [push_eq_heap_grow N v x hc hfull]
      simp only [pop_back]
      rw [if_neg (by first | omega | (dsimp only; omega))]
      rw [reCap_noop_heap N _ _ (by first | omega | (dsimp only; omega)) (by first | omega | (dsimp only; omega))]
      constructor
      · refine toList_congr N v _ (by first | omega | (dsimp only; omega)) ?_
        intro i hi
        simp only [activeBuf]
        try dsimp only
        simp only [if_pos hgt, if_pos hc]
        rw [if_neg (by omega), if_pos hi]
      · try dsimp only
        omega
  · have hcN : v.cap = N := by omega
    by_cases hs : v.sz < N
    · rw [push_eq_inline_stay N v x hcN hs]
      simp only [pop_back]
      rw [if_neg (by first | omega | (dsimp only; omega))]
      rw [reCap_noop_inline N _ _ (by first | omega | (dsimp only; omega)) (by first | omega | (dsimp only; omega))]
      constructor
      · refine toList_congr N v _ (by first | omega | (dsimp only; omega)) ?_
        intro i hi
        simp only [activeBuf]
        try dsimp only
        simp only [if_neg hc]
        rw [if_neg (by omega)]
      · try dsimp only
        omega
    · have hsN : N ≤ v.sz := by omega
      have hszN : v.sz = N := by omega
      have hge := capfunc_ge (v.sz + 1) N v.cap
      have hgt := capfunc_gt (v.sz + 1) N v.cap (by omega)
      rw [push_eq_promote N v x hcN hsN]
      simp only [pop_back]
      rw [if_neg (by first | omega | (dsimp only; omega))]
      rw [reCap_demote N _ _ (by first | omega | (dsimp only; omega)) (by first | omega | (dsimp only; omega))]
      constructor
      · refine toList_congr N v _ (by first | omega | (dsimp only; omega)) ?_
        intro i hi
        simp only [activeBuf]
        try dsimp only
        simp only [if_neg (show ¬ N < N by omega), if_neg hc]
        rw [if_pos (show i < v.sz + 1 - 1 by omega)]
        rw [if_neg (by omega), if_pos (by omega)]
      · try dsimp only
        omega

/-- Witness for C10 at a concrete container (exercising the promotion and
demotion path with N = 4 and a full inline buffer). -/
theorem C10_push_pop_roundtrip_witness :
    toList 4 (pop_back 4 (push_back 4 (fromList 4 [1, 2, 3, 4] : VLV Nat) 9))
      = toList 4 (fromList 4 [1, 2, 3, 4] : VLV Nat) :=
  (C10_push_pop_roundtrip 4 (fromList 4 [1, 2, 3, 4]) 9 (by decide)).1

theorem toList_getD (N : Nat) (v : VLV α) (j : Nat) (h : j < v.sz) :
    (toList N v).getD j default = activeBuf N v j := by
  simp [toList, List.getD_eq_getElem?_getD, List.getElem?_map, List.getElem?_range, h]

theorem toList_getElem? (N : Nat) (v : VLV α) (i : Nat) :
    (toList N v)[i]? = if i < v.sz then some (activeBuf N v i) else none := by
  by_cases h : i < v.sz
  · rw [if_pos h]
    simp only [toList, List.getElem?_map, List.getElem?_range h]
    rfl
  · rw [if_neg h]
    apply List.getElem?_eq_none
    rw [toList_length]
    omega

theorem getElem?_insert_shape (L adds : List α) (d i : Nat) (hd : d ≤ L.length) :
    (L.take d ++ (adds ++ L.drop d))[i]? =
      if i < d then L[i]?
      else if i < d + adds.length then adds[i - d]?
      else L[i - adds.length]? := by
  have ht : (L.take d).length = d := by simp; omega
  rw [List.getElem?_append, ht]
  by_cases h1 : i < d
  · rw [if_pos h1, if_pos h1, List.getElem?_take, if_pos h1]
  · rw [if_neg h1, if_neg h1, List.getElem?_append]
    by_cases h2 : i < d + adds.length
    · rw [if_pos (by omega), if_pos h2]
    · rw [if_neg (by omega), if_neg h2, List.getElem?_drop]
      congr 1
      omega

theorem getElem?_erase_shape (L : List α) (dF dL i : Nat) (hF : dF ≤ dL)
    (hL : dL ≤ L.length) :
    (L.take dF ++ L.drop dL)[i]? =
      if i < dF then L[i]? else L[dL + (i - dF)]? := by
  have ht : (L.take dF).length = dF := by simp; omega
  rw [List.getElem?_append, ht]
  by_cases h1 : i < dF
  · rw [if_pos h1, if_pos h1, List.getElem?_take, if_pos h1]
  · rw [if_neg h1, if_neg h1, List.getElem?_drop]

theorem threePart_pointwise (buf : Nat → α) (adds : List α) (d s i : Nat)
    (hd : d ≤ s) :
    (if i < s + adds.length then
      some (if i < d then buf i
        else if i < d + adds.length then adds.getD (i - d) default
        else if i < d + adds.length + (s - d) then buf (d + (i - (d + adds.length)))
        else default)
     else none)
    = if i < d then (if i < s then some (buf i) else none)
      else if i < d + adds.length then adds[i - d]?
      else if i - adds.length < s then some (buf (i - adds.length)) else none := by
  by_cases h1 : i < d
  · simp only [if_pos h1, if_pos (show i < s + adds.length by omega),
      if_pos (show i < s by omega)]
  · simp only [if_neg h1]
    by_cases h2 : i < d + adds.length
    · simp only [if_pos h2, if_pos (show i < s + adds.length by omega)]
      rw [List.getElem?_eq_getElem (show i - d < adds.length by omega)]
      rw [List.getD_eq_getElem adds default (by omega)]
    · simp only [if_neg h2]
      by_cases h3 : i < s + adds.length
      · simp only [if_pos h3, if_pos (show i < d + adds.length + (s - d) by omega),
          if_pos (show i - adds.length < s by omega)]
        congr 2
        omega
      · simp only [if_neg h3, if_neg (show ¬ i - adds.length < s by omega)]

theorem threePartInline_pointwise (st : Nat → α) (adds : List α) (d s i : Nat)
    (hd : d ≤ s) :
    (if i < s + adds.length then
      some (if d + adds.length ≤ i ∧ i < d + adds.length + (s - d)
        then (if d + (i - (d + adds.length)) < s then st (d + (i - (d + adds.length)))
              else default)
        else (if d ≤ i ∧ i < d + adds.length then adds.getD (i - d) default else st i))
     else none)
    = if i < d then (if i < s then some (st i) else none)
      else if i < d + adds.length then adds[i - d]?
      else if i - adds.length < s then some (st (i - adds.length)) else none := by
  by_cases h1 : i < d
  · simp only [if_pos h1, if_pos (show i < s + adds.length by omega),
      if_pos (show i < s by omega),
      if_neg (show ¬ (d + adds.length ≤ i ∧ i < d + adds.length + (s - d)) by omega),
      if_neg (show ¬ (d ≤ i ∧ i < d + adds.length) by omega)]
  · simp only [if_neg h1]
    by_cases h2 : i < d + adds.length
    · simp only [if_pos h2, if_pos (show i < s + adds.length by omega),
        if_neg (show ¬ (d + adds.length ≤ i ∧ i < d + adds.length + (s - d)) by omega),
        if_pos (show d ≤ i ∧ i < d + adds.length by omega)]
      rw [List.getElem?_eq_getElem (show i - d < adds.length by omega)]
      rw [List.getD_eq_getElem adds default (by omega)]
    · simp only [if_neg h2]
      by_cases h3 : i < s + adds.length
      · simp only [if_pos h3,
          if_pos (show d + adds.length ≤ i ∧ i < d + adds.length + (s - d) by omega),
          if_pos (show d + (i - (d + adds.length)) < s by omega),
          if_pos (show i - adds.length < s by omega)]
        congr 2
        omega
      · simp only [if_neg h3, if_neg (show ¬ i - adds.length < s by omega)]

theorem threePartOne_pointwise (buf : Nat → α) (x : α) (d s i : Nat)
    (hd : d ≤ s) :
    (if i < s + 1 then
      some (if i < d then buf i
        else if i = d then x
        else if i < d + 1 + (s - d) then buf (d + (i - (d + 1)))
        else default)
     else none)
    = if i < d then (if i < s then some (buf i) else none)
      else if i < d + 1 then [x][i - d]?
      else if i - 1 < s then some (buf (i - 1)) else none := by
  by_cases h1 : i < d
  · simp only [if_pos h1, if_pos (show i < s + 1 by omega), if_pos (show i < s by omega)]
  · simp only [if_neg h1]
    by_cases h2 : i = d
    · simp only [if_pos h2, if_pos (show i < d + 1 by omega),
        if_pos (show i < s + 1 by omega)]
      rw [show i - d = 0 by omega]
      rfl
    · simp only [if_neg h2, if_neg (show ¬ i < d + 1 by omega)]
      by_cases h3 : i < s + 1
      · simp only [if_pos h3, if_pos (show i < d + 1 + (s - d) by omega),
          if_pos (show i - 1 < s by omega)]
        congr 2
        omega
      · simp only [if_neg h3, if_neg (show ¬ i - 1 < s by omega)]

theorem threePartOneInline_pointwise (st : Nat → α) (x : α) (d s i : Nat)
    (hd : d ≤ s) :
    (if i < s + 1 then
      some (if d + 1 ≤ i ∧ i < d + 1 + (s - d)
        then (if d + (i - (d + 1)) < s then st (d + (i - (d + 1))) else default)
        else (if i = d then x else st i))
     else none)
    = if i < d then (if i < s then some (st i) else none)
      else if i < d + 1 then [x][i - d]?
      else if i - 1 < s then some (st (i - 1)) else none := by
  by_cases h1 : i < d
  · simp only [if_pos h1, if_pos (show i < s + 1 by omega), if_pos (show i < s by omega),
      if_neg (show ¬ (d + 1 ≤ i ∧ i < d + 1 + (s - d)) by omega),
      if_neg (show ¬ i = d by omega)]
  · simp only [if_neg h1]
    by_cases h2 : i = d
    · simp only [if_pos h2, if_pos (show i < d + 1 by omega),
        if_pos (show i < s + 1 by omega),
        if_neg (show ¬ (d + 1 ≤ i ∧ i < d + 1 + (s - d)) by omega)]
      rw [show i - d = 0 by omega]
      rfl
    · simp only [if_neg h2, if_neg (show ¬ i < d + 1 by omega)]
      by_cases h3 : i < s + 1
      · simp only [if_pos h3,
          if_pos (show d + 1 ≤ i ∧ i < d + 1 + (s - d) by omega),
          if_pos (show d + (i - (d + 1)) < s by omega),
          if_pos (show i - 1 < s by omega)]
        congr 2
        omega
      · simp only [if_neg h3, if_neg (show ¬ i - 1 < s by omega)]

theorem erasePart_pointwise (buf : Nat → α) (dF dL s i : Nat) (hF : dF ≤ dL)
    (hL : dL ≤ s) :
    (if i < s - (dL - dF) then
       some (if dF ≤ i ∧ i < dF + (s - dL) then buf (dL + (i - dF)) else buf i)
     else none)
  = if i < dF then (if i < s then some (buf i) else none)
    else if dL + (i - dF) < s then some (buf (dL + (i - dF))) else none := by
  by_cases h1 : i < dF
  · simp only [if_pos h1, if_pos (show i < s - (dL - dF) by omega),
      if_pos (show i < s by omega),
      if_neg (show ¬ (dF ≤ i ∧ i < dF + (s - dL)) by omega)]
  · simp only [if_neg h1]
    by_cases h2 : i < s - (dL - dF)
    · simp only [if_pos h2, if_pos (show dF ≤ i ∧ i < dF + (s - dL) by omega),
        if_pos (show dL + (i - dF) < s by omega)]
    · simp only [if_neg h2, if_neg (show ¬ dL + (i - dF) < s by omega)]

theorem eraseDemote_pointwise (hp st : Nat → α) (dF dL s i : Nat) (hF : dF ≤ dL)
    (hL : dL ≤ s) :
    (if i < s - (dL - dF) then
       some (if dF ≤ i ∧ i < dF + (s - dL) then hp (dL + (i - dF))
             else (if i < dF then hp i else st i))
     else none)
  = if i < dF then (if i < s then some (hp i) else none)
    else if dL + (i - dF) < s then some (hp (dL + (i - dF))) else none := by
  by_cases h1 : i < dF
  · simp only [if_pos h1, if_pos (show i < s - (dL - dF) by omega),
      if_pos (show i < s by omega),
      if_neg (show ¬ (dF ≤ i ∧ i < dF + (s - dL)) by omega)]
  · simp only [if_neg h1]
    by_cases h2 : i < s - (dL - dF)
    · simp only [if_pos h2, if_pos (show dF ≤ i ∧ i < dF + (s - dL) by omega),
        if_pos (show dL + (i - dF) < s by omega)]
    · simp only [if_neg h2, if_neg (show ¬ dL + (i - dF) < s by omega)]

/-- C3: `insert(position, first, last)` at offset `d` with `k` new elements
produces: the original first `d` elements, then the `k` new elements in
order, then the original elements from offset `d` on, and the size grows by
`k` — in all three choreographies (heap stays heap, inline promotes to heap,
inline stays inline); the single-element form does the same with `k = 1`. -/
theorem C3_insert_contents (N : Nat) (v : VLV α) (d : Nat) (adds : List α) (x : α)
    (hInv : Inv N v) (hd : d ≤ v.sz) :
    toList N (insertRange N v d adds).1
      = (toList N v).take d ++ (adds ++ (toList N v).drop d)
  ∧ (insertRange N v d adds).1.sz = v.sz + adds.length
  ∧ toList N (insertOne N v d x).1
      = (toList N v).take d ++ (x :: (toList N v).drop d)
  ∧ (insertOne N v d x).1.sz = v.sz + 1 := by
  obtain ⟨h1, h2, h3⟩ := hInv
  have hdL : d ≤ (toList N v).length := by rw [toList_length]; omega
  refine ⟨?_, ?_, ?_, ?_⟩
  · simp only [insertRange]
    split
    · rename_i hc
      have hgt := capfunc_gt (v.sz + adds.length) N v.cap (by omega)
      try dsimp only
      apply List.ext_getElem?
      intro i
      rw [getElem?_insert_shape _ _ _ _ hdL]
      simp only [toList_getElem?]
      simp only [activeBuf]
      try dsimp only
      rw [if_pos hgt, if_pos hc]
      exact threePart_pointwise v.heapArr adds d v.sz i hd
    split
    · rename_i hc hk
      have hgt := capfunc_gt (v.sz + adds.length) N v.cap (by omega)
      try dsimp only
      apply List.ext_getElem?
      intro i
      rw [getElem?_insert_shape _ _ _ _ hdL]
      simp only [toList_getElem?]
      simp only [activeBuf]
      try dsimp only
      rw [if_pos hgt, if_neg hc]
      exact threePart_pointwise v.stackArr adds d v.sz i hd
    · rename_i hc hk
      try dsimp only
      apply List.ext_getElem?
      intro i
      rw [getElem?_insert_shape _ _ _ _ hdL]
      simp only [toList_getElem?]
      simp only [activeBuf]
      try dsimp only
      rw [if_neg hc, if_neg hc]
      exact threePartInline_pointwise v.stackArr adds d v.sz i hd
  · simp only [insertRange]
    split
    · rfl
    split
    · rfl
    · rfl
  · simp only [insertOne]
    rw [← List.singleton_append]
    split
    · rename_i hc
      have hgt := capfunc_gt (v.sz + 1) N v.cap (by omega)
      try dsimp only
      apply List.ext_getElem?
      intro i
      rw [getElem?_insert_shape _ _ _ _ hdL]
      simp only [toList_getElem?]
      simp only [activeBuf]
      try dsimp only
      rw [if_pos hgt, if_pos hc]
      exact threePartOne_pointwise v.heapArr x d v.sz i hd
    split
    · rename_i hc hk
      have hgt := capfunc_gt (v.sz + 1) N v.cap (by omega)
      try dsimp only
      apply List.ext_getElem?
      intro i
      rw [getElem?_insert_shape _ _ _ _ hdL]
      simp only [toList_getElem?]
      simp only [activeBuf]
      try dsimp only
      rw [if_pos hgt, if_neg hc]
      exact threePartOne_pointwise v.stackArr x d v.sz i hd
    · rename_i hc hk
      try dsimp only
      apply List.ext_getElem?
      intro i
      rw [getElem?_insert_shape _ _ _ _ hdL]
      simp only [toList_getElem?]
      simp only [activeBuf]
      try dsimp only
      rw [if_neg hc, if_neg hc]
      exact threePartOneInline_pointwise v.stackArr x d v.sz i hd
  · simp only [insertOne]
    split
    · rfl
    split
    · rfl
    · rfl

/-- Witness for C3 at a concrete container and insertion. -/
theorem C3_insert_contents_witness :
    toList 4 (insertRange 4 (fromList 4 [10, 20, 30] : VLV Nat) 1 [1, 2]).1
      = (toList 4 (fromList 4 [10, 20, 30] : VLV Nat)).take 1
        ++ ([1, 2] ++ (toList 4 (fromList 4 [10, 20, 30] : VLV Nat)).drop 1) :=
  (C3_insert_contents 4 (fromList 4 [10, 20, 30]) 1 [1, 2] 9 (by decide) (by decide)).1

/-- C4: `erase(first, last)` removes exactly `[first, last)`: elements
before `first` stay in place, elements after `last` shift left by
`last - first`, and the size shrinks by `last - first` — in all three
storage cases (stays inline, heap demotes to inline, stays heap); the
single-element `erase(it)` is literally the range form with
`last = it + 1`. -/
theorem C4_erase_contents (N : Nat) (v : VLV α) (dF dL : Nat)
    (hInv : Inv N v) (hF : dF ≤ dL) (hL : dL ≤ v.sz) :
    toList N (eraseRange N v dF dL).1
      = (toList N v).take dF ++ (toList N v).drop dL
  ∧ (eraseRange N v dF dL).1.sz = v.sz - (dL - dF)
  ∧ (∀ d2 : Nat, eraseOne N v d2 = eraseRange N v d2 (d2 + 1)) := by
  obtain ⟨h1, h2, h3⟩ := hInv
  have hLL : dL ≤ (toList N v).length := by rw [toList_length]; omega
  refine ⟨?_, ?_, fun d2 => rfl⟩
  · simp only [eraseRange]
    split
    · rename_i hs
      split
      · rename_i hc
        try dsimp only
        apply List.ext_getElem?
        intro i
        rw [getElem?_erase_shape _ _ _ _ hF hLL]
        simp only [toList_getElem?]
        simp only [activeBuf]
        try dsimp only
        rw [if_pos hc, if_pos hc]
        exact erasePart_pointwise v.heapArr dF dL v.sz i hF hL
      · rename_i hc
        try dsimp only
        apply List.ext_getElem?
        intro i
        rw [getElem?_erase_shape _ _ _ _ hF hLL]
        simp only [toList_getElem?]
        simp only [activeBuf]
        try dsimp only
        rw [if_neg hc, if_neg hc]
        exact erasePart_pointwise v.stackArr dF dL v.sz i hF hL
    split
    · rename_i hs hdem
      have hc : N < v.cap := by omega
      try dsimp only
      apply List.ext_getElem?
      intro i
      rw [getElem?_erase_shape _ _ _ _ hF hLL]
      simp only [toList_getElem?]
      simp only [activeBuf]
      try dsimp only
      rw [if_neg (show ¬ N < N by omega), if_pos hc]
      exact eraseDemote_pointwise v.heapArr v.stackArr dF dL v.sz i hF hL
    · rename_i hs hdem
      have hc : N < v.cap := by omega
      try dsimp only
      apply List.ext_getElem?
      intro i
      rw [getElem?_erase_shape _ _ _ _ hF hLL]
      simp only [toList_getElem?]
      simp only [activeBuf]
      try dsimp only
      rw [if_pos hc, if_pos hc]
      exact erasePart_pointwise v.heapArr dF dL v.sz i hF hL
  · simp only [eraseRange]
    split
    · split
      · rfl
      · rfl
    split
    · rfl
    · rfl

/-- Witness for C4 at a concrete container and range. -/
theorem C4_erase_contents_witness :
    toList 4 (eraseRange 4 (fromList 4 [0, 1, 2, 3, 4, 5, 6] : VLV Nat) 1 3).1
      = (toList 4 (fromList 4 [0, 1, 2, 3, 4, 5, 6] : VLV Nat)).take 1
        ++ (toList 4 (fromList 4 [0, 1, 2, 3, 4, 5, 6] : VLV Nat)).drop 3 :=
  (C4_erase_contents 4 (fromList 4 [0, 1, 2, 3, 4, 5, 6]) 1 3 (by decide)
    (by decide) (by decide)).1

theorem count_noop_heap (N : Nat) (w : VLV α) (p : Nat) (hle : w.sz ≤ w.cap)
    (hgt : N < w.sz) : reCapCopyCount N w p = none := by
  unfold reCapCopyCount
  rw [if_pos ⟨hle, hgt⟩]

theorem count_noop_inline (N : Nat) (w : VLV α) (p : Nat) (hcap : w.cap = N)
    (hle : w.sz ≤ w.cap) : reCapCopyCount N w p = none := by
  unfold reCapCopyCount
  rw [if_neg (by omega), if_pos hcap, if_pos hle]

theorem count_to_heap (N : Nat) (w : VLV α) (p : Nat) (hcap : w.cap = N)
    (hgt : w.cap < w.sz) : reCapCopyCount N w p = some p := by
  unfold reCapCopyCount
  rw [if_neg (by omega), if_pos hcap, if_neg (by omega)]

theorem count_grow (N : Nat) (w : VLV α) (p : Nat) (hcap : N < w.cap)
    (hlt : w.cap < w.sz) : reCapCopyCount N w p = some p := by
  unfold reCapCopyCount
  rw [if_neg (by omega), if_neg (by omega), if_pos hcap, if_pos (by omega)]

theorem count_demote (N : Nat) (w : VLV α) (p : Nat) (hcap : N < w.cap)
    (hle : w.sz ≤ N) : reCapCopyCount N w p = some w.sz := by
  unfold reCapCopyCount
  rw [if_neg (by omega), if_neg (by omega), if_pos hcap, if_neg (by omega),
    if_pos hle]

/-- C5: on every transition the storage engine actually performs for the
size-changing invocation patterns — push_back (prevSize = size - 1),
pop_back (prevSize = size + 1) and clear (prevSize = the pre-clear size) —
the number of elements copied between buffers is exactly
min(prevSize, size); and the observable result of the call is unchanged
when every buffer slot at index ≥ min(prevSize, size) is scrubbed to a junk
value, i.e. the transition never reads a source slot at or beyond
min(prevSize, size). -/
theorem C5_transition_copy_bounds (N : Nat) (v : VLV α) (hInv : Inv N v) :
    (∀ k, reCapCopyCount N { v with sz := v.sz + 1 } v.sz = some k →
        k = min v.sz (v.sz + 1)
      ∧ obs N (reCap N { v with sz := v.sz + 1 } v.sz)
          = obs N (reCap N (srcTrunc (min v.sz (v.sz + 1)) { v with sz := v.sz + 1 }) v.sz))
  ∧ (1 ≤ v.sz →
      ∀ k, reCapCopyCount N { v with sz := v.sz - 1 } v.sz = some k →
        k = min v.sz (v.sz - 1)
      ∧ obs N (reCap N { v with sz := v.sz - 1 } v.sz)
          = obs N (reCap N (srcTrunc (min v.sz (v.sz - 1)) { v with sz := v.sz - 1 }) v.sz))
  ∧ (1 ≤ v.sz →
      ∀ k, reCapCopyCount N { v with sz := 0 } v.sz = some k →
        k = min v.sz 0
      ∧ obs N (reCap N { v with sz := 0 } v.sz)
          = obs N (reCap N (srcTrunc (min v.sz 0) { v with sz := 0 }) v.sz)) := by
  obtain ⟨h1, h2, h3⟩ := hInv
  refine ⟨?_, ?_, ?_⟩
  · by_cases hc : N < v.cap
    · by_cases hroom : v.sz + 1 ≤ v.cap
      · intro k hk
        rw [count_noop_heap N _ _ (by first | omega | (dsimp only; omega))
          (by first | omega | (dsimp only; omega))] at hk
        cases hk
      · intro k hk
        have hgt := capfunc_gt (v.sz + 1) N v.cap (by omega)
        rw [count_grow N _ _ (by first | omega | (dsimp only; omega))
          (by first | omega | (dsimp only; omega))] at hk
        injection hk with hk2
        refine ⟨by omega, ?_⟩
        rw [reCap_grow N _ _ (by first | omega | (dsimp only; omega))
          (by first | omega | (dsimp only; omega))]
        rw [reCap_grow N _ _ (by simp only [srcTrunc]; omega)
          (by simp only [srcTrunc]; omega)]
        simp only [obs, srcTrunc, Prod.mk.injEq]
        refine ⟨trivial, trivial, ?_⟩
        refine toList_congr N _ _ rfl ?_
        intro i hi
        simp only [activeBuf]
        try dsimp only
        rw [if_pos hgt, if_pos hgt]
        by_cases hip : i < v.sz
        · rw [if_pos hip, if_pos hip, if_pos (show i < min v.sz (v.sz + 1) by omega)]
        · rw [if_neg hip, if_neg hip]
    · by_cases hstay : v.sz + 1 ≤ N
      · intro k hk
        rw [count_noop_inline N _ _ (by first | omega | (dsimp only; omega))
          (by first | omega | (dsimp only; omega))] at hk
        cases hk
      · intro k hk
        have hgt := capfunc_gt (v.sz + 1) N v.cap (by omega)
        rw [count_to_heap N _ _ (by first | omega | (dsimp only; omega))
          (by first | omega | (dsimp only; omega))] at hk
        injection hk with hk2
        refine ⟨by omega, ?_⟩
        rw [reCap_to_heap N _ _ (by first | omega | (dsimp only; omega))
          (by first | omega | (dsimp only; omega))]
        rw [reCap_to_heap N _ _ (by simp only [srcTrunc]; omega)
          (by simp only [srcTrunc]; omega)]
        simp only [obs, srcTrunc, Prod.mk.injEq]
        refine ⟨trivial, trivial, ?_⟩
        refine toList_congr N _ _ rfl ?_
        intro i hi
        simp only [activeBuf]
        try dsimp only
        rw [if_pos hgt, if_pos hgt]
        by_cases hip : i < v.sz
        · rw [if_pos hip, if_pos hip, if_pos (show i < min v.sz (v.sz + 1) by omega)]
        · rw [if_neg hip, if_neg hip]
  · intro h0
    by_cases hc : N < v.cap
    · by_cases hdem : v.sz - 1 ≤ N
      · intro k hk
        rw [count_demote N _ _ (by first | omega | (dsimp only; omega))
          (by first | omega | (dsimp only; omega))] at hk
        injection hk with hk2
        have hk3 : v.sz - 1 = k := hk2
        refine ⟨by omega, ?_⟩
        rw [reCap_demote N _ _ (by first | omega | (dsimp only; omega))
          (by first | omega | (dsimp only; omega))]
        rw [reCap_demote N _ _ (by simp only [srcTrunc]; omega)
          (by simp only [srcTrunc]; omega)]
        simp only [obs, srcTrunc, Prod.mk.injEq]
        refine ⟨trivial, trivial, ?_⟩
        refine toList_congr N _ _ rfl ?_
        intro i hi
        simp only [activeBuf]
        try dsimp only
        rw [if_neg (show ¬ N < N by omega), if_neg (show ¬ N < N by omega)]
        by_cases hip : i < v.sz - 1
        · rw [if_pos hip, if_pos hip, if_pos (show i < min v.sz (v.sz - 1) by omega)]
        · exact absurd hi hip
      · intro k hk
        rw [count_noop_heap N _ _ (by first | omega | (dsimp only; omega))
          (by first | omega | (dsimp only; omega))] at hk
        cases hk
    · intro k hk
      rw [count_noop_inline N _ _ (by first | omega | (dsimp only; omega))
        (by first | omega | (dsimp only; omega))] at hk
      cases hk
  · intro h0
    by_cases hc : N < v.cap
    · intro k hk
      rw [count_demote N _ _ (by first | omega | (dsimp only; omega))
        (by first | omega | (dsimp only; omega))] at hk
      injection hk with hk2
      have hk3 : (0 : Nat) = k := hk2
      refine ⟨by omega, ?_⟩
      rw [reCap_demote N _ _ (by first | omega | (dsimp only; omega))
        (by first | omega | (dsimp only; omega))]
      rw [reCap_demote N _ _ (by simp only [srcTrunc]; omega)
        (by simp only [srcTrunc]; omega)]
      simp only [obs, srcTrunc, Prod.mk.injEq]
      refine ⟨trivial, trivial, ?_⟩
      refine toList_congr N _ _ rfl ?_
      intro i hi
      have hi2 : i < 0 := hi
      exact absurd hi2 (by omega)
    · intro k hk
      rw [count_noop_inline N _ _ (by first | omega | (dsimp only; omega))
        (by first | omega | (dsimp only; omega))] at hk
      cases hk

/-- Witness for C5 at a concrete container: a full heap container (size 7,
capacity 7) about to grow on push — prevSize = 7, new size = 8, and the
transition copies 7 = min(7, 8) elements. -/
theorem C5_transition_copy_bounds_witness :
    7 = min (fromList 4 [0, 1, 2, 3, 4, 5, 6] : VLV Nat).sz
        ((fromList 4 [0, 1, 2, 3, 4, 5, 6] : VLV Nat).sz + 1)
  ∧ obs 4 (reCap 4 { (fromList 4 [0, 1, 2, 3, 4, 5, 6] : VLV Nat) with
        sz := (fromList 4 [0, 1, 2, 3, 4, 5, 6] : VLV Nat).sz + 1 }
      (fromList 4 [0, 1, 2, 3, 4, 5, 6] : VLV Nat).sz)
    = obs 4 (reCap 4 (srcTrunc (min (fromList 4 [0, 1, 2, 3, 4, 5, 6] : VLV Nat).sz
        ((fromList 4 [0, 1, 2, 3, 4, 5, 6] : VLV Nat).sz + 1))
        { (fromList 4 [0, 1, 2, 3, 4, 5, 6] : VLV Nat) with
          sz := (fromList 4 [0, 1, 2, 3, 4, 5, 6] : VLV Nat).sz + 1 })
      (fromList 4 [0, 1, 2, 3, 4, 5, 6] : VLV Nat).sz) :=
  (C5_transition_copy_bounds 4 (fromList 4 [0, 1, 2, 3, 4, 5, 6])
    (by decide)).1 7 (by decide)

end VLVec
